import Mathlib

/-!
Verification development for the attribute value model of lordwelch/golslib
(src/NodeAttribute.go).  The Go code is embedded shallowly: the dynamic
`interface{}` value becomes the sum type `GoValue`, Go's multiple-return
`(value, err)` calls become pairs with an `Option` error component, and the
relevant parts of the Go standard library (`strconv`, `encoding/base64`) are
modelled as executable Lean functions on `Nat`/`Int`/`List Char`.
-/

/-- ASCII lower-casing as done by strconv's `lower(c) = c | 0x20`. -/
def lowerChar (c : Char) : Char := Char.ofNat (c.toNat ||| 32)

/-- Decimal digit test for a character. -/
def isDigitChar (c : Char) : Bool := '0' ≤ c ∧ c ≤ '9'

/-- Digit value used by strconv's parse loop: `0-9`, then `a-z`/`A-Z` as
10..35; any other character has no digit value (syntax error in Go). -/
def digitVal (c : Char) : Option Nat :=
  if '0' ≤ c ∧ c ≤ '9' then some (c.toNat - '0'.toNat)
  else if 'a' ≤ lowerChar c ∧ lowerChar c ≤ 'z' then some ((lowerChar c).toNat - 'a'.toNat + 10)
  else none

/-- Hexadecimal digit test. -/
def isHexDigit (c : Char) : Bool :=
  isDigitChar c ∨ ('a' ≤ lowerChar c ∧ lowerChar c ≤ 'f')

/-- Hexadecimal digit value (only meaningful when `isHexDigit` holds). -/
def hexVal (c : Char) : Nat :=
  if '0' ≤ c ∧ c ≤ '9' then c.toNat - '0'.toNat else (lowerChar c).toNat - 'a'.toNat + 10

/-- The two error kinds of Go's `strconv.NumError`: `ErrSyntax` and `ErrRange`. -/
inductive StrconvErr
  | syntaxErr
  | rangeErr
deriving DecidableEq

/-- DataType enumeration from NodeAttribute.go (ordinal-stable; the Lean
constructor order matches the Go `iota` order). -/
inductive DataType
  | DT_None
  | DT_Byte
  | DT_Short
  | DT_UShort
  | DT_Int
  | DT_UInt
  | DT_Float
  | DT_Double
  | DT_IVec2
  | DT_IVec3
  | DT_IVec4
  | DT_Vec2
  | DT_Vec3
  | DT_Vec4
  | DT_Mat2
  | DT_Mat3
  | DT_Mat3x4
  | DT_Mat4x3
  | DT_Mat4
  | DT_Bool
  | DT_String
  | DT_Path
  | DT_FixedString
  | DT_LSString
  | DT_ULongLong
  | DT_ScratchBuffer
  | DT_Long
  | DT_Int8
  | DT_TranslatedString
  | DT_WString
  | DT_LSWString
  | DT_UUID
  | DT_Int64
  | DT_TranslatedFSString
deriving DecidableEq

/-- Errors returned by the embedded Go code.  Go returns `error` values; we
give each distinct error source its own constructor.  `numError` models
`strconv.NumError` with its `Func`, `Num` and wrapped `Err` fields;
`shapeMismatch` models `fmt.Errorf("A vector of length %d was expected, got %d", ...)`. -/
inductive GoError
  | numError (fn : String) (num : String) (err : StrconvErr)
  | shapeMismatch (expected actual : Nat)
  | notImplemented
  | corruptBase64
  | invalidUUID
  | noColumns
  | noRows
deriving DecidableEq

/-- Abstraction of a Go `float64`/`float32` value as needed by this
development: zero values are tracked exactly together with their IEEE sign
bit (this is what the zero-formatting claims are about); every non-zero
value is carried abstractly by a string that stands for its
`strconv.FormatFloat(v, 'f', -1, bits)` rendering. -/
inductive GoFloat
  | zero (neg : Bool)
  | nonzero (render : String)
deriving DecidableEq

/-- The dynamic type of `NodeAttribute.Value` (Go `interface{}`).  One
constructor per dynamic Go type that the source can store there.  `nil` is
the unset interface; `ivec`/`fvec` are the named slice types `Ivec`/`Vec`
(which carry methods), distinct from the plain `[]int`/`[]float64` slices
(`intList`/`floatList`) that `FromString` stores. -/
inductive GoValue
  | nil
  | bytes (bs : List Nat)
  | i64 (n : Int)
  | u64 (n : Nat)
  | f64 (f : GoFloat)
  | f32 (f : GoFloat)
  | boolean (b : Bool)
  | str (s : String)
  | intList (xs : List Int)
  | floatList (xs : List GoFloat)
  | ivec (xs : List Int)
  | fvec (xs : List GoFloat)
  | uuid (bs : List Nat)
  | translated (version : Nat) (value : String) (handle : String)
deriving DecidableEq

/-- NodeAttribute from the source.  The Go field `Type` is rendered `Ty`
(Lean reserves `Type`). -/
structure NodeAttribute where
  Name : String
  Ty : DataType
  Value : GoValue
deriving DecidableEq

/-- Model of Go's `strconv` underscore-placement check `underscoreOK`:
state machine over the characters after an optional sign and base prefix. -/
def usLoop (hex : Bool) : List Char → Char → Bool
  | [], saw => saw ≠ '_'
  | c :: cs, saw =>
    if ('0' ≤ c ∧ c ≤ '9') ∨ (hex ∧ 'a' ≤ lowerChar c ∧ lowerChar c ≤ 'f') then
      usLoop hex cs '0'
    else if c = '_' then
      if saw ≠ '0' then false else usLoop hex cs '_'
    else if saw = '_' then false
    else usLoop hex cs '!'

/-- strconv's `underscoreOK(s)`: underscores may only separate digits (and
may follow a base prefix). -/
def underscoreOK (cs0 : List Char) : Bool :=
  let cs1 := match cs0 with
    | c :: rest => if c = '-' ∨ c = '+' then rest else cs0
    | [] => cs0
  match cs1 with
  | '0' :: c :: rest =>
    if lowerChar c = 'b' ∨ lowerChar c = 'o' ∨ lowerChar c = 'x' then
      usLoop (lowerChar c = 'x') rest '0'
    else usLoop false cs1 '^'
  | _ => usLoop false cs1 '^'

/-- Base auto-detection performed by `strconv.ParseUint` when called with
base 0: `0b`/`0o`/`0x` prefixes (needing at least one following character),
otherwise a leading `0` selects octal. -/
def detectBase : List Char → Nat × List Char
  | '0' :: c :: rest =>
    if rest ≠ [] ∧ lowerChar c = 'b' then (2, rest)
    else if rest ≠ [] ∧ lowerChar c = 'o' then (8, rest)
    else if rest ≠ [] ∧ lowerChar c = 'x' then (16, rest)
    else (8, c :: rest)
  | '0' :: [] => (8, [])
  | cs => (10, cs)

/-- strconv's overflow cutoff: the smallest value whose multiplication by
`base` overflows uint64. -/
def puCutoff (base : Nat) : Nat := (2 ^ 64 - 1) / base + 1

/-- The digit-accumulation loop of `strconv.ParseUint`.  Returns the
accumulated value, whether an underscore was seen, and the error, with the
same returned values as Go: `0` on syntax error, `maxVal` on range error. -/
def puLoop (base0 : Bool) (base maxVal : Nat) : List Char → Nat → Bool → Nat × Bool × Option StrconvErr
  | [], n, u => (n, u, none)
  | c :: cs, n, u =>
    if base0 ∧ c = '_' then puLoop base0 base maxVal cs n true
    else
      match digitVal c with
      | none => (0, u, some .syntaxErr)
      | some d =>
        if base ≤ d then (0, u, some .syntaxErr)
        else if puCutoff base ≤ n then (maxVal, u, some .rangeErr)
        else if maxVal < n * base + d then (maxVal, u, some .rangeErr)
        else puLoop base0 base maxVal cs (n * base + d) u

/-- Post-loop step of `strconv.ParseUint`: reject misplaced underscores on
an otherwise successful parse. -/
def finishLoop : Nat × Bool × Option StrconvErr → List Char → Nat × Option StrconvErr
  | (n, _, some e), _ => (n, some e)
  | (n, u, none), s0 => if u ∧ ¬ underscoreOK s0 then (0, some .syntaxErr) else (n, none)

/-- Model of `strconv.ParseUint(s, base, bitSize)` over the characters of
`s`.  Only bases 0 and 2..36 are supported (the source uses 0 and 10). -/
def goParseUintChars (cs : List Char) (base bitSize : Nat) : Nat × Option StrconvErr :=
  match cs with
  | [] => (0, some .syntaxErr)
  | _ =>
    if 2 ≤ base ∧ base ≤ 36 then
      finishLoop (puLoop false base (2 ^ bitSize - 1) cs 0 false) cs
    else if base = 0 then
      let p := detectBase cs
      finishLoop (puLoop true p.1 (2 ^ bitSize - 1) p.2 0 false) cs
    else (0, some .syntaxErr)

/-- Model of `strconv.ParseUint` on a Lean `String`. -/
def goParseUint (s : String) (base bitSize : Nat) : Nat × Option StrconvErr :=
  goParseUintChars s.data base bitSize

/-- Model of `strconv.ParseInt(s, base, bitSize)`: strip an optional sign,
parse the rest as unsigned with the same bit size, then apply the signed
range cutoffs (returning the clamped extreme on range error, as Go does). -/
def goParseIntChars (cs : List Char) (base bitSize : Nat) : Int × Option StrconvErr :=
  match cs with
  | [] => (0, some .syntaxErr)
  | c :: rest =>
    let neg := c = '-'
    let scs := if c = '+' ∨ c = '-' then rest else c :: rest
    let r := goParseUintChars scs base bitSize
    match r.2 with
    | some .syntaxErr => (0, some .syntaxErr)
    | e =>
      let cutoff : Nat := 2 ^ (bitSize - 1)
      if ¬ neg ∧ cutoff ≤ r.1 then ((cutoff : Int) - 1, some .rangeErr)
      else if neg ∧ cutoff < r.1 then (-(cutoff : Int), some .rangeErr)
      else ((if neg then -(r.1 : Int) else (r.1 : Int)), e)

/-- Model of `strconv.ParseInt` on a Lean `String`. -/
def goParseInt (s : String) (base bitSize : Nat) : Int × Option StrconvErr :=
  goParseIntChars s.data base bitSize

/-- Model of `strconv.ParseBool`: the exact literal list accepted by Go. -/
def goParseBool (s : String) : Bool × Option StrconvErr :=
  if s = "1" ∨ s = "t" ∨ s = "T" ∨ s = "true" ∨ s = "TRUE" ∨ s = "True" then (true, none)
  else if s = "0" ∨ s = "f" ∨ s = "F" ∨ s = "false" ∨ s = "FALSE" ∨ s = "False" then (false, none)
  else (false, some .syntaxErr)

/-- Optional sign stripping shared by the float grammar. -/
def stripSign : List Char → Bool × List Char
  | '+' :: rest => (false, rest)
  | '-' :: rest => (true, rest)
  | cs => (false, cs)

/-- Model of `strconv.ParseFloat` restricted to the decimal grammar
(optional sign, digits with an optional fraction part, optional decimal
exponent, and the `inf`/`infinity`/`nan` specials).  Go additionally accepts
hexadecimal floats and digit-separating underscores and reports a range
error for out-of-range magnitudes; none of the claims depend on those cases
and they are not modelled.  Zero-valued results are tracked exactly together
with the input's sign; other values are carried abstractly. -/
def goParseFloatChars (cs : List Char) : GoFloat × Option StrconvErr :=
  match cs with
  | [] => (.zero false, some .syntaxErr)
  | _ =>
    let sp := stripSign cs
    let low := sp.2.map lowerChar
    if low = ['i', 'n', 'f'] ∨ low = ['i', 'n', 'f', 'i', 'n', 'i', 't', 'y'] then
      (.nonzero (if sp.1 then "-Inf" else "+Inf"), none)
    else if low = ['n', 'a', 'n'] then (.nonzero "NaN", none)
    else
      let ipr := List.span isDigitChar sp.2
      let fpr := match ipr.2 with
        | '.' :: t => List.span isDigitChar t
        | _ => (([] : List Char), ipr.2)
      let er : Bool × List Char := match fpr.2 with
        | e :: t =>
          if lowerChar e = 'e' then
            let ed := List.span isDigitChar (stripSign t).2
            (ed.1 ≠ [], ed.2)
          else (false, e :: t)
        | [] => (true, [])
      if (ipr.1 ≠ [] ∨ fpr.1 ≠ []) ∧ er.1 ∧ er.2 = [] then
        if (ipr.1 ++ fpr.1).all (fun c => c = '0') then (.zero sp.1, none)
        else (.nonzero (String.mk cs), none)
      else (.zero false, some .syntaxErr)

/-- Model of `strconv.ParseFloat` on a Lean `String`.  The `bitSize`
argument (32 or 64 at the call sites) does not affect the abstracted value. -/
def goParseFloat (s : String) (bitSize : Nat) : GoFloat × Option StrconvErr :=
  let _ := bitSize
  goParseFloatChars s.data

/-- The standard base64 alphabet used by Go's `base64.StdEncoding`. -/
def b64Alphabet : List Char :=
  "ABCDEFGHIJKLMNOPQRSTUVWXYZabcdefghijklmnopqrstuvwxyz0123456789+/".data

/-- Character for a 6-bit group. -/
def b64Char (n : Nat) : Char := b64Alphabet.getD n '?'

/-- Reverse lookup in the base64 alphabet. -/
def b64IndexAux : List Char → Nat → Char → Option Nat
  | [], _, _ => none
  | a :: as, i, c => if a = c then some i else b64IndexAux as (i + 1) c

/-- Index of a character in the base64 alphabet, if any. -/
def b64Index (c : Char) : Option Nat := b64IndexAux b64Alphabet 0 c

/-- Model of `base64.StdEncoding.EncodeToString` on a byte list (each byte
`< 256`): three bytes become four alphabet characters; a final group of one
or two bytes is padded with `=`. -/
def base64Encode : List Nat → List Char
  | [] => []
  | [b1] => [b64Char (b1 / 4), b64Char (b1 % 4 * 16), '=', '=']
  | [b1, b2] => [b64Char (b1 / 4), b64Char (b1 % 4 * 16 + b2 / 16), b64Char (b2 % 16 * 4), '=']
  | b1 :: b2 :: b3 :: rest =>
    b64Char (b1 / 4) :: b64Char (b1 % 4 * 16 + b2 / 16) ::
      b64Char (b2 % 16 * 4 + b3 / 64) :: b64Char (b3 % 64) :: base64Encode rest

/-- Model of `base64.StdEncoding.DecodeString`: the input must consist of
four-character quanta, with `=` padding allowed only in the final quantum.
Like Go, a corrupt quantum yields the bytes decoded so far together with an
error (Go's `CorruptInputError`); unlike Go, characters decoded from the
corrupt quantum itself and the skipping of CR/LF are not modelled (no claim
depends on them). -/
def base64Decode : List Char → List Nat × Option GoError
  | [] => ([], none)
  | c1 :: c2 :: c3 :: c4 :: rest =>
    match b64Index c1, b64Index c2 with
    | some n1, some n2 =>
      if c3 = '=' then
        if c4 = '=' ∧ rest = [] then ([n1 * 4 + n2 / 16], none)
        else ([], some .corruptBase64)
      else
        match b64Index c3 with
        | some n3 =>
          if c4 = '=' then
            if rest = [] then ([n1 * 4 + n2 / 16, n2 % 16 * 16 + n3 / 4], none)
            else ([], some .corruptBase64)
          else
            match b64Index c4 with
            | some n4 =>
              let r := base64Decode rest
              ((n1 * 4 + n2 / 16) :: (n2 % 16 * 16 + n3 / 4) :: (n3 % 4 * 64 + n4) :: r.1, r.2)
            | none => ([], some .corruptBase64)
        | none => ([], some .corruptBase64)
    | _, _ => ([], some .corruptBase64)
  | _ => ([], some .corruptBase64)

/-- Byte pairing of a hex character list (two characters per byte). -/
def hexPairBytes : List Char → List Nat
  | a :: b :: rest => (hexVal a * 16 + hexVal b) :: hexPairBytes rest
  | _ => []

/-- Model of `uuid.Parse` from github.com/google/uuid, restricted to the
canonical 36-character dashed form; the `urn:uuid:`-prefixed, braced and
32-character compact forms the library also accepts are not modelled (no
claim depends on them).  On success the 16 bytes are returned; on failure
the zero value together with an error, as the library does. -/
def goUuidParse (s : String) : List Nat × Option GoError :=
  let cs := s.data
  if cs.length = 36 ∧
      (List.range 36).all (fun i =>
        if i = 8 ∨ i = 13 ∨ i = 18 ∨ i = 23 then cs.getD i ' ' = '-'
        else isHexDigit (cs.getD i ' ')) then
    (hexPairBytes (cs.filter (fun c => c ≠ '-')), none)
  else ([], some .invalidUUID)

/-- UTF-8 encoding of a character, used to model Go's `[]byte(str)`. -/
def utf8Bytes (c : Char) : List Nat :=
  let n := c.toNat
  if n < 0x80 then [n]
  else if n < 0x800 then [0xC0 + n / 64, 0x80 + n % 64]
  else if n < 0x10000 then [0xE0 + n / 4096, 0x80 + n / 64 % 64, 0x80 + n % 64]
  else [0xF0 + n / 262144, 0x80 + n / 4096 % 64, 0x80 + n / 64 % 64, 0x80 + n % 64]

/-- Model of Go's `[]byte(str)` conversion: the UTF-8 bytes of the string. -/
def strBytes (s : String) : List Nat := s.data.flatMap utf8Bytes

/-- Name string of each data type, from `DataType.String()` in the source. -/
def DataType.nameStr : DataType → String
  | .DT_None => "None"
  | .DT_Byte => "uint8"
  | .DT_Short => "int16"
  | .DT_UShort => "uint16"
  | .DT_Int => "int32"
  | .DT_UInt => "uint32"
  | .DT_Float => "float"
  | .DT_Double => "double"
  | .DT_IVec2 => "ivec2"
  | .DT_IVec3 => "ivec3"
  | .DT_IVec4 => "ivec4"
  | .DT_Vec2 => "fvec2"
  | .DT_Vec3 => "fvec3"
  | .DT_Vec4 => "fvec4"
  | .DT_Mat2 => "mat2x2"
  | .DT_Mat3 => "mat3x3"
  | .DT_Mat3x4 => "mat3x4"
  | .DT_Mat4x3 => "mat4x3"
  | .DT_Mat4 => "mat4x4"
  | .DT_Bool => "bool"
  | .DT_String => "string"
  | .DT_Path => "path"
  | .DT_FixedString => "FixedString"
  | .DT_LSString => "LSString"
  | .DT_ULongLong => "uint64"
  | .DT_ScratchBuffer => "ScratchBuffer"
  | .DT_Long => "old_int64"
  | .DT_Int8 => "int8"
  | .DT_TranslatedString => "TranslatedString"
  | .DT_WString => "WString"
  | .DT_LSWString => "LSWString"
  | .DT_UUID => "guid"
  | .DT_Int64 => "int64"
  | .DT_TranslatedFSString => "TranslatedFSString"

/-- `DataType.GetColumns` from the source: defined for vector and matrix
kinds, failing with the "Data type does not have columns" error otherwise. -/
def DataType.GetColumns : DataType → Nat × Option GoError
  | .DT_IVec2 | .DT_Vec2 | .DT_Mat2 => (2, none)
  | .DT_IVec3 | .DT_Vec3 | .DT_Mat3 | .DT_Mat4x3 => (3, none)
  | .DT_IVec4 | .DT_Vec4 | .DT_Mat3x4 | .DT_Mat4 => (4, none)
  | _ => (0, some .noColumns)

/-- `DataType.GetRows` from the source. -/
def DataType.GetRows : DataType → Nat × Option GoError
  | .DT_IVec2 | .DT_IVec3 | .DT_IVec4 | .DT_Vec2 | .DT_Vec3 | .DT_Vec4 => (1, none)
  | .DT_Mat2 => (2, none)
  | .DT_Mat3 | .DT_Mat3x4 => (3, none)
  | .DT_Mat4x3 | .DT_Mat4 => (4, none)
  | _ => (0, some .noRows)

/-- `NodeAttribute.IsNumeric` from the source: note that `DT_UShort` and
`DT_Int64` are absent from the list. -/
def NodeAttribute.IsNumeric (na : NodeAttribute) : Bool :=
  match na.Ty with
  | .DT_Byte | .DT_Short | .DT_Int | .DT_UInt | .DT_Float | .DT_Double
  | .DT_ULongLong | .DT_Long | .DT_Int8 => true
  | _ => false

/-- Model of `strings.Split(s, ".")` for a single-character separator, on
the character list of the string: the empty string yields one empty field. -/
def splitDot : List Char → List (List Char)
  | [] => [[]]
  | '.' :: rest => [] :: splitDot rest
  | c :: rest =>
    match splitDot rest with
    | g :: gs => (c :: g) :: gs
    | [] => [[c]]

/-- The element loop of the integer-vector branch of `FromString`: parse
each period-separated field with `strconv.ParseInt(v, 0, 64)`, stopping at
the first error (which is returned to the caller). -/
def parseIntList : List (List Char) → List Int × Option GoError
  | [] => ([], none)
  | v :: vs =>
    let r := goParseIntChars v 0 64
    match r.2 with
    | some e => ([r.1], some (.numError "ParseInt" (String.mk v) e))
    | none =>
      let rest := parseIntList vs
      (r.1 :: rest.1, rest.2)

/-- The element loop of the float-vector branch of `FromString`, using
`strconv.ParseFloat(v, 64)`. -/
def parseFloatList : List (List Char) → List GoFloat × Option GoError
  | [] => ([], none)
  | v :: vs =>
    let r := goParseFloatChars v
    match r.2 with
    | some e => ([r.1], some (.numError "ParseFloat" (String.mk v) e))
    | none =>
      let rest := parseFloatList vs
      (r.1 :: rest.1, rest.2)

/-- Hex digit character (lower case), used for uuid rendering. -/
def hexChar (n : Nat) : Char := "0123456789abcdef".data.getD n '0'

/-- Lower-case hex rendering of a byte list. -/
def bytesHex (bs : List Nat) : List Char :=
  bs.flatMap (fun b => [hexChar (b / 16 % 16), hexChar (b % 16)])

/-- Dashed uuid rendering (`uuid.UUID.String()`). -/
def uuidString (bs : List Nat) : String :=
  String.mk (bytesHex (bs.take 4) ++ '-' :: bytesHex ((bs.drop 4).take 2) ++
    '-' :: bytesHex ((bs.drop 6).take 2) ++ '-' :: bytesHex ((bs.drop 8).take 2) ++
    '-' :: bytesHex (bs.drop 10))

/-- Model of `strconv.FormatFloat(v, 'f', -1, bits)` on the abstracted float
values: Go renders positive zero as `"0"` and negative zero as `"-0"` (the
sign bit is honoured); non-zero values render as their carried shortest
decimal form. -/
def formatFloat : GoFloat → String
  | .zero true => "-0"
  | .zero false => "0"
  | .nonzero r => r

/-- Character list of `Ivec.String()` before the final `[1:]` slice: a
leading space before every component. -/
def ivecChars (xs : List Int) : List Char :=
  xs.flatMap (fun v => ' ' :: (toString v).data)

/-- Model of `Ivec.String()` from the source: space-separated decimal
components, the leading space removed by `[1:]`.  (Go would abort on an
empty `Ivec`, slicing an empty string; the model returns the empty string
there — no claim uses an empty vector.) -/
def ivecString (xs : List Int) : String := String.mk ((ivecChars xs).drop 1)

/-- Space-joined concatenation used by Go's `fmt` rendering of slices. -/
def joinSpace (ss : List (List Char)) : List Char :=
  (ss.flatMap (fun s => ' ' :: s)).drop 1

/-- Model of `fmt.Sprint(na.Value)` per dynamic type.  Types with a
`String()` method (`Ivec`, `uuid.UUID`) print via that method; slices print
bracketed and space-separated; the float rendering reuses the abstract
carried form (Go's `%v` uses the shortest `'g'` format, which this
development never relies on); a `TranslatedString` struct prints as Go's
default brace-delimited struct form. -/
def fmtSprint : GoValue → String
  | .nil => "<nil>"
  | .bytes bs => String.mk ('[' :: joinSpace (bs.map (fun b => (toString b).data)) ++ [']'])
  | .i64 n => toString n
  | .u64 n => toString n
  | .f64 f => formatFloat f
  | .f32 f => formatFloat f
  | .boolean b => if b then "true" else "false"
  | .str s => s
  | .intList xs => String.mk ('[' :: joinSpace (xs.map (fun v => (toString v).data)) ++ [']'])
  | .floatList xs => String.mk ('[' :: joinSpace (xs.map (fun f => (formatFloat f).data)) ++ [']'])
  | .ivec xs => ivecString xs
  | .fvec xs => String.mk ('[' :: joinSpace (xs.map (fun f => (formatFloat f).data)) ++ [']'])
  | .uuid bs => uuidString bs
  | .translated v val h =>
    String.mk ('{' :: (toString v).data ++ ' ' :: val.data ++ ' ' :: h.data ++ ['}'])

/-- Model of `NodeAttribute.String()` from the source.  The guard
`if na.Value == 0 { na.Value = 0 }` in the double/float branches compares
the interface value against the untyped constant `0` (dynamic type `int`),
which can never equal a stored `float64`/`float32`, and in any case mutates
only the method's value-receiver copy after `v` was already read — it has
no observable effect and so has no counterpart here.  `none` models the
run-time abort of the type assertion `na.Value.(float64)` /
`na.Value.(float32)` when the stored dynamic type does not match. -/
def NodeAttribute.toText (na : NodeAttribute) : Option String :=
  match na.Ty with
  | .DT_ScratchBuffer =>
    match na.Value with
    | .bytes bs => some (String.mk (base64Encode bs))
    | v => some (fmtSprint v)
  | .DT_Double =>
    match na.Value with
    | .f64 f => some (formatFloat f)
    | _ => none
  | .DT_Float =>
    match na.Value with
    | .f32 f => some (formatFloat f)
    | _ => none
  | _ => some (fmtSprint na.Value)

/-- Core of `NodeAttribute.FromString` (everything after the empty-string
workaround): the per-kind switch.  Each `na.Value, err = parse(...)` multiple
assignment in Go stores the parser's returned value even when the error is
non-nil, which the corresponding arms reproduce; branches that return an
error before reaching their assignment leave `na` untouched.  In the
`DT_ULongLong` arm the source assigns `err` but has no `if err != nil`
check, so the function falls through to `return nil`: the arm therefore
never reports an error. -/
def fromStringCore (na : NodeAttribute) (str : String) : NodeAttribute × Option GoError :=
  match na.Ty with
  | .DT_None => (na, none)
  | .DT_Byte => ({na with Value := .bytes (strBytes str)}, none)
  | .DT_Short =>
    let r := goParseInt str 0 16
    ({na with Value := .i64 r.1}, r.2.map (fun e => .numError "ParseInt" str e))
  | .DT_UShort =>
    let r := goParseUint str 0 16
    ({na with Value := .u64 r.1}, r.2.map (fun e => .numError "ParseUint" str e))
  | .DT_Int =>
    let r := goParseInt str 0 32
    ({na with Value := .i64 r.1}, r.2.map (fun e => .numError "ParseInt" str e))
  | .DT_UInt =>
    let r := goParseUint str 0 16
    ({na with Value := .u64 r.1}, r.2.map (fun e => .numError "ParseUint" str e))
  | .DT_Float =>
    let r := goParseFloat str 32
    ({na with Value := .f64 r.1}, r.2.map (fun e => .numError "ParseFloat" str e))
  | .DT_Double =>
    let r := goParseFloat str 64
    ({na with Value := .f64 r.1}, r.2.map (fun e => .numError "ParseFloat" str e))
  | .DT_IVec2 | .DT_IVec3 | .DT_IVec4 =>
    let nums := splitDot str.data
    let lc := na.Ty.GetColumns
    match lc.2 with
    | some e => (na, some e)
    | none =>
      if lc.1 ≠ nums.length then (na, some (.shapeMismatch lc.1 nums.length))
      else
        let r := parseIntList nums
        match r.2 with
        | some e => (na, some e)
        | none => ({na with Value := .intList r.1}, none)
  | .DT_Vec2 | .DT_Vec3 | .DT_Vec4 =>
    let nums := splitDot str.data
    let lc := na.Ty.GetColumns
    match lc.2 with
    | some e => (na, some e)
    | none =>
      if lc.1 ≠ nums.length then (na, some (.shapeMismatch lc.1 nums.length))
      else
        let r := parseFloatList nums
        match r.2 with
        | some e => (na, some e)
        | none => ({na with Value := .floatList r.1}, none)
  | .DT_Mat2 | .DT_Mat3 | .DT_Mat3x4 | .DT_Mat4x3 | .DT_Mat4 => (na, some .notImplemented)
  | .DT_Bool =>
    let r := goParseBool str
    ({na with Value := .boolean r.1}, r.2.map (fun e => .numError "ParseBool" str e))
  | .DT_String | .DT_Path | .DT_FixedString | .DT_LSString | .DT_WString | .DT_LSWString =>
    ({na with Value := .str str}, none)
  | .DT_TranslatedString => (na, none)
  | .DT_TranslatedFSString => (na, none)
  | .DT_ULongLong =>
    let r := goParseUint str 10 64
    ({na with Value := .u64 r.1}, none)
  | .DT_ScratchBuffer =>
    let r := base64Decode str.data
    ({na with Value := .bytes r.1}, r.2)
  | .DT_Long | .DT_Int64 =>
    let r := goParseInt str 10 64
    ({na with Value := .i64 r.1}, r.2.map (fun e => .numError "ParseInt" str e))
  | .DT_Int8 =>
    let r := goParseInt str 10 8
    ({na with Value := .i64 r.1}, r.2.map (fun e => .numError "ParseInt" str e))
  | .DT_UUID =>
    let r := goUuidParse str
    ({na with Value := .uuid r.1}, r.2)

/-- `NodeAttribute.FromString` from the source: the mutated attribute is
returned together with the Go error.  For numeric kinds an empty input is
replaced by `"0"` before the per-kind switch (`fromStringCore`). -/
def NodeAttribute.FromString (na : NodeAttribute) (str0 : String) : NodeAttribute × Option GoError :=
  let str := if na.IsNumeric = true ∧ str0 = "" then "0" else str0
  fromStringCore na str

/-- An XML attribute of the marshalling model. -/
structure XmlAttr where
  name : String
  value : String
deriving DecidableEq

/-- Token stream produced by the `xml.Encoder` in the marshalling model. -/
inductive XmlToken
  | startTag (name : String) (attrs : List XmlAttr)
  | endTag (name : String)
deriving DecidableEq

/-- Which dynamic value types satisfy the package's own `XMLMarshaler`
interface (method with a `*xml.StartElement` parameter): only
`TranslatedString` (and `TranslatedFSString` via embedding, not
representable here) has that signature. -/
def implementsXMLMarshaler : GoValue → Bool
  | .translated _ _ _ => true
  | _ => false

/-- Which dynamic value types satisfy `encoding/xml.Marshaler` (method with
a by-value `xml.StartElement`): `Vec` and `Mat` do; `Ivec` has only a
`String()` method and the plain slices stored by `FromString` have no
methods at all, so none of them qualifies.  (`Mat` values are not
representable in `GoValue`; no claim stores a matrix value.) -/
def implementsXmlMarshaler : GoValue → Bool
  | .fvec _ => true
  | _ => false

/-- Attributes appended by `TranslatedString.MarshalXML`: `handle` and then
`version`. -/
def translatedXmlAttrs : GoValue → List XmlAttr
  | .translated v _ h => [⟨"handle", h⟩, ⟨"version", toString v⟩]
  | _ => []

/-- Model of `Vec.MarshalXML`: per-component attributes named `x`/`y`/`z`/`w`
with `FormatFloat(v, 'f', -1, 32)` values; for two or more components the
element is renamed `floatN`; five or more components fail with
`ErrVectorTooBig` before any token is emitted. -/
def vecMarshalTokens (vs : List GoFloat) (startName : String) (startAttrs : List XmlAttr) : List XmlToken :=
  if 5 ≤ vs.length then []
  else
    let finalName := if vs.length ≤ 1 then startName else "float" ++ toString vs.length
    let attrs := startAttrs ++ (List.range vs.length).map
      (fun i => ⟨["x", "y", "z", "w"].getD i "", formatFloat (vs.getD i (.zero false))⟩)
    [.startTag finalName attrs, .endTag finalName]

/-- Tokens produced by `e.EncodeElement(v1, xml.StartElement{Name: na.Type.String()})`
for values implementing `encoding/xml.Marshaler`. -/
def encodeElementTokens (na : NodeAttribute) : List XmlToken :=
  match na.Value with
  | .fvec vs => vecMarshalTokens vs na.Ty.nameStr []
  | _ => []

/-- Model of `NodeAttribute.MarshalXML`: `id` and `type` attributes are
always appended to the caller's start element; a value implementing the
package's `XMLMarshaler` appends its own attributes; a value implementing
neither marshaler interface gets a flat `value` attribute rendered by
`NodeAttribute.String()`; a value implementing `encoding/xml.Marshaler` is
encoded as nested content between the start and end tokens.  `none` models
the run-time abort propagated from `NodeAttribute.String()`. -/
def NodeAttribute.MarshalXML (na : NodeAttribute) (startName : String) (startAttrs : List XmlAttr) : Option (List XmlToken) :=
  let attrs1 := startAttrs ++ [⟨"id", na.Name⟩, ⟨"type", na.Ty.nameStr⟩]
  let m2 := implementsXMLMarshaler na.Value
  let m1 := implementsXmlMarshaler na.Value
  let attrs2 := if m2 then attrs1 ++ translatedXmlAttrs na.Value else attrs1
  if m1 ∨ m2 then
    some ([XmlToken.startTag startName attrs2] ++
      (if m1 then encodeElementTokens na else []) ++ [XmlToken.endTag startName])
  else
    match na.toText with
    | some vs => some [XmlToken.startTag startName (attrs2 ++ [⟨"value", vs⟩]), XmlToken.endTag startName]
    | none => none

/-- Does any start tag in the token list carry an attribute of this name? -/
def tokensHaveAttr (ts : List XmlToken) (n : String) : Bool :=
  ts.any (fun t =>
    match t with
    | .startTag _ attrs => attrs.any (fun a => a.name = n)
    | .endTag _ => false)

/-- Kinds for which `FromString` leaves the attribute untouched whenever it
returns an error: the kinds that never report an error at all (none, byte,
the string kinds, the translated kinds, and uint64 — whose parse error is
dropped), plus the vector and matrix kinds, which return before assigning. -/
def safeKinds : List DataType :=
  [.DT_None, .DT_Byte, .DT_IVec2, .DT_IVec3, .DT_IVec4, .DT_Vec2, .DT_Vec3, .DT_Vec4,
   .DT_Mat2, .DT_Mat3, .DT_Mat3x4, .DT_Mat4x3, .DT_Mat4,
   .DT_String, .DT_Path, .DT_FixedString, .DT_LSString, .DT_WString, .DT_LSWString,
   .DT_TranslatedString, .DT_TranslatedFSString, .DT_ULongLong]

lemma fromStringCore_err_unchanged (na : NodeAttribute) (str : String)
    (hk : na.Ty ∈ safeKinds) :
    ∀ p : NodeAttribute × Option GoError, fromStringCore na str = p → p.2.isSome = true → p.1 = na := by
  intro p hEq he
  cases hty : na.Ty <;>
    first
      | exact absurd (hty ▸ hk) (by decide)
      | (simp only [fromStringCore, hty, DataType.GetColumns] at hEq
         repeat' split at hEq
         all_goals first
           | (subst hEq; rfl)
           | (subst hEq; simp at he))

/-- C1 (counterexample): for the int16 kind, `FromString` on the malformed
input "x" returns an error, yet the attribute's value field has been
overwritten (the Go multiple assignment stores the parser's zero result
before the error check), so a failed parse does not leave the value
observably unchanged. -/
theorem golslib_C1_counterexample :
    ((NodeAttribute.FromString ⟨"a", .DT_Short, .i64 5⟩ "x").2 =
      some (.numError "ParseInt" "x" .syntaxErr)) ∧
    (NodeAttribute.FromString ⟨"a", .DT_Short, .i64 5⟩ "x").1.Value ≠ GoValue.i64 5 := by
  decide

/-- C1 (amended): if `FromString` returns an error and the kind is one of
the vector kinds, the matrix kinds, or a kind that never reports a parse
error (none, byte, the string kinds, the translated kinds, uint64), the
attribute is exactly its pre-call state.  For the remaining fallible kinds
(the scalar numeric kinds, bool, scratch-buffer and UUID) the value field
is overwritten with the parser's returned result even when the error is
returned. -/
theorem golslib_C1_amended (na : NodeAttribute) (s : String)
    (hk : na.Ty ∈ safeKinds) (he : ((na.FromString s).2.isSome = true)) :
    (na.FromString s).1 = na := by
  simp only [NodeAttribute.FromString] at he ⊢
  exact fromStringCore_err_unchanged na _ hk _ rfl he

theorem golslib_C1_amended_witness :
    ((⟨"v", .DT_IVec3, .i64 7⟩ : NodeAttribute).Ty ∈ safeKinds) ∧
    ((NodeAttribute.FromString ⟨"v", .DT_IVec3, .i64 7⟩ "1.2").2.isSome = true) ∧
    (NodeAttribute.FromString ⟨"v", .DT_IVec3, .i64 7⟩ "1.2").1 = ⟨"v", .DT_IVec3, .i64 7⟩ :=
  ⟨by decide, by decide, golslib_C1_amended ⟨"v", .DT_IVec3, .i64 7⟩ "1.2" (by decide) (by decide)⟩

/-- C2 (code divergence): in the `DT_ULongLong` branch the source assigns
`na.Value, err = strconv.ParseUint(str, 10, 64)` but — alone among the
fallible branches — has no `if err != nil` check, so `FromString` reports
success for malformed input (storing 0) and for overflowing input (storing
the clamped 2^64-1), instead of returning the parse error. -/
theorem golslib_C2_ulonglong_error_swallowed :
    NodeAttribute.FromString ⟨"n", .DT_ULongLong, .u64 7⟩ "abc" =
      (⟨"n", .DT_ULongLong, .u64 0⟩, none) ∧
    NodeAttribute.FromString ⟨"n", .DT_ULongLong, .u64 7⟩ "99999999999999999999" =
      (⟨"n", .DT_ULongLong, .u64 (2 ^ 64 - 1)⟩, none) := by
  constructor <;> decide

/-- C4: for every kind the source counts as numeric, `FromString` on the
empty string takes the workaround branch that substitutes "0", so the call
is literally the same computation as `FromString` on "0". -/
theorem golslib_C4_empty_eq_zero (na : NodeAttribute) (h : na.IsNumeric = true) :
    na.FromString "" = na.FromString "0" := by
  simp [NodeAttribute.FromString, h]

theorem golslib_C4_witness :
    ((⟨"i", .DT_Int, .nil⟩ : NodeAttribute).IsNumeric = true) ∧
    NodeAttribute.FromString ⟨"i", .DT_Int, .nil⟩ "" =
      NodeAttribute.FromString ⟨"i", .DT_Int, .nil⟩ "0" :=
  ⟨by decide, golslib_C4_empty_eq_zero ⟨"i", .DT_Int, .nil⟩ (by decide)⟩

/-- C6: for every matrix kind and every input text, `FromString` fails with
the "not implemented" error and leaves the attribute untouched. -/
theorem golslib_C6_matrix_not_implemented (na : NodeAttribute) (s : String)
    (h : na.Ty = .DT_Mat2 ∨ na.Ty = .DT_Mat3 ∨ na.Ty = .DT_Mat3x4 ∨
         na.Ty = .DT_Mat4x3 ∨ na.Ty = .DT_Mat4) :
    na.FromString s = (na, some .notImplemented) := by
  have hnum : na.IsNumeric = false := by
    rcases h with h | h | h | h | h <;> simp [NodeAttribute.IsNumeric, h]
  rcases h with h | h | h | h | h <;>
    simp [NodeAttribute.FromString, hnum, fromStringCore, h]

theorem golslib_C6_witness :
    NodeAttribute.FromString ⟨"m", .DT_Mat3, .nil⟩ "1" =
      (⟨"m", .DT_Mat3, .nil⟩, some .notImplemented) :=
  golslib_C6_matrix_not_implemented ⟨"m", .DT_Mat3, .nil⟩ "1" (Or.inr (Or.inl rfl))

/-- C7 (code divergence): `NodeAttribute.String()` formats the double value
negative zero as "-0", not "0" — the zero guard in the source compares the
interface value to the untyped constant 0 (dynamic type int), which never
matches a float64/float32, and the formatted `v` was read before the guard
anyway.  Positive zero does format as "0"; the float kind behaves the same
at 32-bit precision. -/
theorem golslib_C7_negzero_formats_minus0 :
    NodeAttribute.toText ⟨"d", .DT_Double, .f64 (.zero true)⟩ = some "-0" ∧
    NodeAttribute.toText ⟨"d", .DT_Double, .f64 (.zero false)⟩ = some "0" ∧
    NodeAttribute.toText ⟨"f", .DT_Float, .f32 (.zero true)⟩ = some "-0" :=
  ⟨rfl, rfl, rfl⟩

/-- C9 (counterexample): marshalling an ivec2 attribute holding the
two-element integer vector `Ivec{1,2}` emits a flat `value` attribute
("1 2") and no `x` attribute at all — `Ivec` implements neither marshaler
interface, so the flat-attribute path is taken, contradicting the claimed
nested x/y rendering. -/
theorem golslib_C9_counterexample :
    NodeAttribute.MarshalXML ⟨"Pos", .DT_IVec2, .ivec [1, 2]⟩ "attribute" [] =
      some [.startTag "attribute" [⟨"id", "Pos"⟩, ⟨"type", "ivec2"⟩, ⟨"value", "1 2"⟩],
            .endTag "attribute"] ∧
    tokensHaveAttr [XmlToken.startTag "attribute"
      [⟨"id", "Pos"⟩, ⟨"type", "ivec2"⟩, ⟨"value", "1 2"⟩], .endTag "attribute"] "x" = false ∧
    tokensHaveAttr [XmlToken.startTag "attribute"
      [⟨"id", "Pos"⟩, ⟨"type", "ivec2"⟩, ⟨"value", "1 2"⟩], .endTag "attribute"] "value" = true := by
  decide

/-- C9 (amended): marshalling an ivec2 attribute holding a two-element
`Ivec` takes the flat-attribute path: the element carries `id`, `type` and
a flat `value` attribute holding the space-separated components rendered by
`Ivec.String()`, with no nested per-axis attributes — because `Ivec`
implements neither of the XML marshaler interfaces. -/
theorem golslib_C9_amended (nm : String) (a b : Int) (startName : String)
    (startAttrs : List XmlAttr) :
    NodeAttribute.MarshalXML ⟨nm, .DT_IVec2, .ivec [a, b]⟩ startName startAttrs =
      some [.startTag startName
              (startAttrs ++ [⟨"id", nm⟩, ⟨"type", "ivec2"⟩, ⟨"value", ivecString [a, b]⟩]),
            .endTag startName] := by
  simp [NodeAttribute.MarshalXML, implementsXmlMarshaler, implementsXMLMarshaler,
    NodeAttribute.toText, fmtSprint, DataType.nameStr]

/-- C10: the byte kind stores the raw UTF-8 bytes of the input text
verbatim and never fails; since byte counts as numeric, an empty input is
first replaced by "0". -/
theorem golslib_C10_byte_stores_raw (na : NodeAttribute) (s : String)
    (h : na.Ty = .DT_Byte) :
    na.FromString s =
      ({na with Value := .bytes (strBytes (if s = "" then "0" else s))}, none) := by
  have hnum : na.IsNumeric = true := by simp [NodeAttribute.IsNumeric, h]
  by_cases hs : s = "" <;> simp [NodeAttribute.FromString, hnum, hs, fromStringCore, h]

theorem golslib_C10_witness :
    NodeAttribute.FromString ⟨"b", .DT_Byte, .nil⟩ "" = (⟨"b", .DT_Byte, .bytes [48]⟩, none) := by
  rw [golslib_C10_byte_stores_raw ⟨"b", .DT_Byte, .nil⟩ "" rfl]
  decide

lemma parseIntList_none_iff (ns : List (List Char)) :
    (parseIntList ns).2 = none ↔ ∀ v ∈ ns, (goParseIntChars v 0 64).2 = none := by
  induction ns with
  | nil => simp [parseIntList]
  | cons v vs ih =>
    rcases h : (goParseIntChars v 0 64).2 with _ | e
    · simp [parseIntList, h, ih]
    · simp [parseIntList, h]

lemma parseIntList_val (ns : List (List Char)) (hn : (parseIntList ns).2 = none) :
    (parseIntList ns).1 = ns.map (fun v => (goParseIntChars v 0 64).1) := by
  induction ns with
  | nil => simp [parseIntList]
  | cons v vs ih =>
    rcases h : (goParseIntChars v 0 64).2 with _ | e
    · simp only [parseIntList, h] at hn ⊢
      simp [ih hn]
    · simp [parseIntList, h] at hn

/-- C5: for the integer-vector kinds, `FromString` splits on periods,
succeeds exactly when the field count equals the kind's column count and
every field parses with `strconv.ParseInt(v, 0, 64)` (yielding the parsed
sequence), and on a count mismatch fails with the shape error reporting
expected versus actual count. -/
theorem golslib_C5_ivec_parse (na : NodeAttribute) (s : String) (cols : Nat)
    (h : (na.Ty = .DT_IVec2 ∧ cols = 2) ∨ (na.Ty = .DT_IVec3 ∧ cols = 3) ∨
         (na.Ty = .DT_IVec4 ∧ cols = 4)) :
    ((na.FromString s).2 = none ↔
      ((splitDot s.data).length = cols ∧
        ∀ v ∈ splitDot s.data, (goParseIntChars v 0 64).2 = none)) ∧
    ((na.FromString s).2 = none →
      na.FromString s =
        ({na with Value := .intList ((splitDot s.data).map (fun v => (goParseIntChars v 0 64).1))}, none)) ∧
    ((splitDot s.data).length ≠ cols →
      na.FromString s = (na, some (.shapeMismatch cols (splitDot s.data).length))) := by
  have hty : na.Ty = .DT_IVec2 ∨ na.Ty = .DT_IVec3 ∨ na.Ty = .DT_IVec4 := by
    rcases h with ⟨h1, _⟩ | ⟨h1, _⟩ | ⟨h1, _⟩ <;> simp [h1]
  have hnum : na.IsNumeric = false := by
    rcases hty with h1 | h1 | h1 <;> simp [NodeAttribute.IsNumeric, h1]
  have hcols : na.Ty.GetColumns = (cols, none) := by
    rcases h with ⟨h1, h2⟩ | ⟨h1, h2⟩ | ⟨h1, h2⟩ <;> simp [DataType.GetColumns, h1, h2]
  have hfs : na.FromString s = fromStringCore na s := by
    simp [NodeAttribute.FromString, hnum]
  rw [hfs]
  by_cases hlen : (splitDot s.data).length = cols
  · have hcore : fromStringCore na s =
        (match (parseIntList (splitDot s.data)).2 with
          | some e => (na, some e)
          | none => ({na with Value := .intList (parseIntList (splitDot s.data)).1}, none)) := by
      rcases hty with h1 | h1 | h1 <;>
        simp only [fromStringCore, h1, h1 ▸ hcols] <;>
        simp [hlen, hcols, h1]
    rw [hcore]
    rcases hp : (parseIntList (splitDot s.data)).2 with _ | e
    · refine ⟨by simp [hlen, ← parseIntList_none_iff, hp], fun _ => ?_, fun hc => absurd hlen hc⟩
      simp [parseIntList_val _ hp]
    · refine ⟨?_, by simp, fun hc => absurd hlen hc⟩
      simp only [← parseIntList_none_iff, hp]
      simp
  · have hcore : fromStringCore na s = (na, some (.shapeMismatch cols (splitDot s.data).length)) := by
      rcases hty with h1 | h1 | h1 <;>
        simp only [fromStringCore, h1, h1 ▸ hcols] <;>
        simp [hcols, h1, Ne.symm hlen]
    rw [hcore]
    refine ⟨by simp [hlen], by simp, fun _ => rfl⟩

theorem golslib_C5_witness :
    NodeAttribute.FromString ⟨"v", .DT_IVec3, .nil⟩ "1.2.3" =
      (⟨"v", .DT_IVec3, .intList [1, 2, 3]⟩, none) ∧
    NodeAttribute.FromString ⟨"v", .DT_IVec3, .nil⟩ "1.2" =
      (⟨"v", .DT_IVec3, .nil⟩, some (.shapeMismatch 3 2)) := by
  constructor
  · have h := (golslib_C5_ivec_parse ⟨"v", .DT_IVec3, .nil⟩ "1.2.3" 3
      (Or.inr (Or.inl ⟨rfl, rfl⟩))).2.1 (by decide)
    rw [h]; decide
  · have h := (golslib_C5_ivec_parse ⟨"v", .DT_IVec3, .nil⟩ "1.2" 3
      (Or.inr (Or.inl ⟨rfl, rfl⟩))).2.2 (by decide)
    rw [h]; decide

lemma b64Index_b64Char : ∀ n < 64, b64Index (b64Char n) = some n := by decide

lemma b64Char_ne_pad : ∀ n < 64, b64Char n ≠ '=' := by decide

lemma b64_roundtrip (bs : List Nat) (h : ∀ b ∈ bs, b < 256) :
    base64Decode (base64Encode bs) = (bs, none) := by
  induction bs using base64Encode.induct with
  | case1 => rfl
  | case2 b1 =>
    have h1 : b1 < 256 := h b1 (by simp)
    have i1 := b64Index_b64Char (b1 / 4) (by omega)
    have i2 := b64Index_b64Char (b1 % 4 * 16) (by omega)
    simp only [base64Encode, base64Decode, i1, i2, if_pos rfl, and_self, if_pos]
    have e1 : b1 / 4 * 4 + b1 % 4 * 16 / 16 = b1 := by omega
    rw [e1]
  | case3 b1 b2 =>
    have h1 : b1 < 256 := h b1 (by simp)
    have h2 : b2 < 256 := h b2 (by simp)
    have i1 := b64Index_b64Char (b1 / 4) (by omega)
    have i2 := b64Index_b64Char (b1 % 4 * 16 + b2 / 16) (by omega)
    have i3 := b64Index_b64Char (b2 % 16 * 4) (by omega)
    have n3 := b64Char_ne_pad (b2 % 16 * 4) (by omega)
    simp only [base64Encode, base64Decode, i1, i2, i3, if_neg n3, if_pos rfl]
    have e1 : b1 / 4 * 4 + (b1 % 4 * 16 + b2 / 16) / 16 = b1 := by omega
    have e2 : (b1 % 4 * 16 + b2 / 16) % 16 * 16 + b2 % 16 * 4 / 4 = b2 := by omega
    rw [e1, e2]
    simp
  | case4 b1 b2 b3 rest ih =>
    have h1 : b1 < 256 := h b1 (by simp)
    have h2 : b2 < 256 := h b2 (by simp)
    have h3 : b3 < 256 := h b3 (by simp)
    have hrest : ∀ b ∈ rest, b < 256 := fun b hb => h b (by simp [hb])
    have i1 := b64Index_b64Char (b1 / 4) (by omega)
    have i2 := b64Index_b64Char (b1 % 4 * 16 + b2 / 16) (by omega)
    have i3 := b64Index_b64Char (b2 % 16 * 4 + b3 / 64) (by omega)
    have i4 := b64Index_b64Char (b3 % 64) (by omega)
    have n3 := b64Char_ne_pad (b2 % 16 * 4 + b3 / 64) (by omega)
    have n4 := b64Char_ne_pad (b3 % 64) (by omega)
    simp only [base64Encode, base64Decode, i1, i2, i3, i4, if_neg n3, if_neg n4, ih hrest]
    have e1 : b1 / 4 * 4 + (b1 % 4 * 16 + b2 / 16) / 16 = b1 := by omega
    have e2 : (b1 % 4 * 16 + b2 / 16) % 16 * 16 + (b2 % 16 * 4 + b3 / 64) / 4 = b2 := by omega
    have e3 : (b2 % 16 * 4 + b3 / 64) % 4 * 64 + b3 % 64 = b3 := by omega
    rw [e1, e2, e3]

/-- C8: a scratch-buffer attribute round-trips through its textual form:
`String()` base64-encodes the stored bytes and `FromString` of that text
succeeds and reproduces the bytes exactly, for every byte sequence
(including empty and all-zero buffers). -/
theorem golslib_C8_scratch_roundtrip (nm : String) (bs : List Nat)
    (h : ∀ b ∈ bs, b < 256) :
    NodeAttribute.toText ⟨nm, .DT_ScratchBuffer, .bytes bs⟩ =
      some (String.mk (base64Encode bs)) ∧
    NodeAttribute.FromString ⟨nm, .DT_ScratchBuffer, .bytes bs⟩ (String.mk (base64Encode bs)) =
      (⟨nm, .DT_ScratchBuffer, .bytes bs⟩, none) := by
  constructor
  · rfl
  · simp [NodeAttribute.FromString, NodeAttribute.IsNumeric, fromStringCore,
      b64_roundtrip bs h]

theorem golslib_C8_witness :
    (∀ b ∈ [0, 0, 0], b < 256) ∧
    NodeAttribute.FromString ⟨"sb", .DT_ScratchBuffer, .bytes [0, 0, 0]⟩ "AAAA" =
      (⟨"sb", .DT_ScratchBuffer, .bytes [0, 0, 0]⟩, none) :=
  ⟨by decide, by
    have h := (golslib_C8_scratch_roundtrip "sb" [0, 0, 0] (by decide)).2
    exact h⟩

lemma puLoop_acc_le (base0 : Bool) (base M : Nat) (hb : 1 ≤ base) :
    ∀ (cs : List Char) (n : Nat) (u : Bool) (v : Nat) (w : Bool),
      puLoop base0 base M cs n u = (v, w, none) → n ≤ v := by
  intro cs
  induction cs with
  | nil =>
    intro n u v w hl
    simp only [puLoop, Prod.mk.injEq] at hl
    omega
  | cons c cs ih =>
    intro n u v w hl
    simp only [puLoop] at hl
    split at hl
    · exact ih n true v w hl
    · split at hl
      · simp at hl
      · split at hl
        · simp at hl
        · split at hl
          · simp at hl
          · split at hl
            · simp at hl
            · have h1 := ih _ u v w hl
              have h2 : n ≤ n * base := Nat.le_mul_of_pos_right n (by omega)
              omega

lemma puLoop_mono_none (base0 : Bool) (base M1 M2 : Nat) (hb : 1 ≤ base) :
    ∀ (cs : List Char) (n : Nat) (u : Bool) (v : Nat) (w : Bool),
      puLoop base0 base M1 cs n u = (v, w, none) → v ≤ M2 →
      puLoop base0 base M2 cs n u = (v, w, none) := by
  intro cs
  induction cs with
  | nil =>
    intro n u v w hl hv
    simpa only [puLoop] using hl
  | cons c cs ih =>
    intro n u v w hl hv
    simp only [puLoop] at hl
    split at hl
    case isTrue hus =>
      simp only [puLoop, if_pos hus]
      exact ih n true v w hl hv
    case isFalse hus =>
      split at hl
      case h_1 => simp at hl
      case h_2 d hd =>
        split at hl
        case isTrue => simp at hl
        case isFalse hdig =>
          split at hl
          case isTrue => simp at hl
          case isFalse hcut =>
            split at hl
            case isTrue => simp at hl
            case isFalse hov =>
              have hacc := puLoop_acc_le base0 base M1 hb cs (n * base + d) u v w hl
              simp only [puLoop, if_neg hus, hd]
              rw [if_neg hdig, if_neg hcut, if_neg (show ¬ M2 < n * base + d by omega)]
              exact ih _ u v w hl hv

lemma puLoop_mono_range (base0 : Bool) (base M1 M2 : Nat) :
    ∀ (cs : List Char) (n : Nat) (u : Bool) (v : Nat) (w : Bool),
      puLoop base0 base M1 cs n u = (v, w, none) → M2 < v → n ≤ M2 →
      ∃ w2, puLoop base0 base M2 cs n u = (M2, w2, some .rangeErr) := by
  intro cs
  induction cs with
  | nil =>
    intro n u v w hl hv hn
    simp only [puLoop, Prod.mk.injEq] at hl
    omega
  | cons c cs ih =>
    intro n u v w hl hv hn
    simp only [puLoop] at hl
    split at hl
    case isTrue hus =>
      have h2 := ih n true v w hl hv hn
      simpa only [puLoop, if_pos hus] using h2
    case isFalse hus =>
      split at hl
      case h_1 => simp at hl
      case h_2 d hd =>
        split at hl
        case isTrue => simp at hl
        case isFalse hdig =>
          split at hl
          case isTrue => simp at hl
          case isFalse hcut =>
            split at hl
            case isTrue => simp at hl
            case isFalse hov =>
              simp only [puLoop, if_neg hus, hd]
              rw [if_neg hdig, if_neg hcut]
              by_cases hM2 : M2 < n * base + d
              · rw [if_pos hM2]
                exact ⟨u, rfl⟩
              · rw [if_neg hM2]
                exact ih _ u v w hl hv (by omega)

lemma detectBase_pos (cs : List Char) : 1 ≤ (detectBase cs).1 := by
  unfold detectBase
  split
  · split_ifs <;> simp
  · simp
  · simp

lemma goParseUintChars_narrow (cs : List Char) (n : Nat)
    (h : goParseUintChars cs 0 64 = (n, none)) :
    (n ≤ 65535 → goParseUintChars cs 0 16 = (n, none)) ∧
    (65536 ≤ n → goParseUintChars cs 0 16 = (65535, some .rangeErr)) := by
  match cs with
  | [] => simp [goParseUintChars] at h
  | c :: cs' =>
    have hb := detectBase_pos (c :: cs')
    simp only [goParseUintChars] at h ⊢
    rw [if_neg (by omega), if_pos trivial] at h ⊢
    rcases hloop : puLoop true (detectBase (c :: cs')).1 (2 ^ 64 - 1) (detectBase (c :: cs')).2 0 false
      with ⟨v, w, e⟩
    rw [hloop] at h
    match e with
    | some e0 => simp [finishLoop] at h
    | none =>
      simp only [finishLoop] at h
      split at h
      · simp at h
      · rename_i hcond
        have hv : v = n := by simpa using congrArg Prod.fst h
        subst hv
        constructor
        · intro hle
          have h16 := puLoop_mono_none true (detectBase (c :: cs')).1 (2 ^ 64 - 1) (2 ^ 16 - 1)
            hb (detectBase (c :: cs')).2 0 false v w hloop (by omega)
          rw [h16]
          simp only [finishLoop]
          rw [if_neg hcond]
        · intro hge
          obtain ⟨w2, h16⟩ := puLoop_mono_range true (detectBase (c :: cs')).1 (2 ^ 64 - 1) (2 ^ 16 - 1)
            (detectBase (c :: cs')).2 0 false v w hloop (by omega) (by omega)
          rw [h16]
          simp [finishLoop]

/-- C3: the nominally 32-bit unsigned kind parses with a 16-bit width
limit: whenever the text denotes (via a full 64-bit run of the same base-0
`ParseUint`) a value below 2^16, `FromString` succeeds with that value, and
whenever it denotes a value of 2^16 or more (in particular anything in
[2^16, 2^32-1]) `FromString` fails with the range error, storing the
clamped 16-bit maximum. -/
theorem golslib_C3_uint_16bit (na : NodeAttribute) (s : String) (n : Nat)
    (hty : na.Ty = .DT_UInt)
    (hden : goParseUint s 0 64 = (n, none)) :
    (n < 65536 → na.FromString s = ({na with Value := .u64 n}, none)) ∧
    (65536 ≤ n → na.FromString s =
      ({na with Value := .u64 65535}, some (.numError "ParseUint" s .rangeErr))) := by
  have hs : s ≠ "" := by
    intro he
    rw [he] at hden
    simp [goParseUint, goParseUintChars] at hden
  have hnum : na.IsNumeric = true := by simp [NodeAttribute.IsNumeric, hty]
  have hnarrow := goParseUintChars_narrow s.data n hden
  constructor
  · intro hlt
    have h16 := hnarrow.1 (by omega)
    simp [NodeAttribute.FromString, hnum, hs, fromStringCore, hty, goParseUint, h16]
  · intro hge
    have h16 := hnarrow.2 hge
    simp [NodeAttribute.FromString, hnum, hs, fromStringCore, hty, goParseUint, h16]

theorem golslib_C3_witness :
    NodeAttribute.FromString ⟨"u", .DT_UInt, .nil⟩ "300" = (⟨"u", .DT_UInt, .u64 300⟩, none) ∧
    NodeAttribute.FromString ⟨"u", .DT_UInt, .nil⟩ "70000" =
      (⟨"u", .DT_UInt, .u64 65535⟩, some (.numError "ParseUint" "70000" .rangeErr)) := by
  constructor
  · have h := (golslib_C3_uint_16bit ⟨"u", .DT_UInt, .nil⟩ "300" 300 rfl (by decide)).1 (by decide)
    rw [h]
  · have h := (golslib_C3_uint_16bit ⟨"u", .DT_UInt, .nil⟩ "70000" 70000 rfl (by decide)).2 (by decide)
    rw [h]
